import Mathlib

/-!
Shallow embedding of `opm.py` (orientation preference map generation and
estimation) and verification of its specification claims.

Modelling conventions:
* numpy arrays are Mathlib matrices over `ℚ` (exact arithmetic stands in for
  IEEE doubles; "up to floating-point tolerance" becomes exact equality).
* `np.linalg.inv` on an exactly singular matrix raises `LinAlgError`; the spec
  calls this error kind `SingularDesignMatrix`.  On a nonsingular matrix it
  returns the inverse, embedded here as `adjugate / det` (`matInv`).
* The reshape `a.reshape(sx, sy)` of a length-`n` vector is row-major
  (C order): flat entry `k` lands at grid position `(k / sy, k % sy)`;
  it raises `ValueError` when `sx * sy ≠ n`, the spec's `ShapeMismatch`.
* `np.random.randn(sx, sy)` raises `ValueError` for negative dimensions (the
  spec's `InvalidShape` kind) and otherwise returns an `sx × sy` grid; the
  drawn noise is modelled by explicitly passed noise tables.
* `scipy.ndimage.filters.gaussian_filter` is an external library capability:
  it is modelled as an arbitrary shape-preserving grid transform passed as an
  argument (the spec treats Gaussian smoothing as an external primitive).
* Complex values are modelled as pairs of rational grids (real and imaginary
  parts) where the code manipulates complex arrays, and as `ℂ`-valued grids
  for the (transcendental) angle computation of `plot_opm`.
-/

namespace GPMaps

open Matrix

/-- The error kinds named by the specification: `InvalidShape` (numpy's
rejection of negative grid dimensions), `SingularDesignMatrix` (LinAlgError
from `np.linalg.inv`), `ShapeMismatch` (ValueError from `reshape`). -/
inductive OpmError where
  | InvalidShape
  | SingularDesignMatrix
  | ShapeMismatch
  deriving DecidableEq

/-- Result of `calculate_map`: the `d × sx × sy` array `M`, with slice `i`
(a matrix of shape `sx × sy`) given by `comps i`. -/
structure MapResult (d : ℕ) where
  sx : ℕ
  sy : ℕ
  comps : Fin d → Matrix (Fin sx) (Fin sy) ℚ

/-- Embedding of `np.linalg.inv` on a nonsingular square rational matrix:
the classical adjugate formula `A⁻¹ = det(A)⁻¹ • adj(A)` (for `det A = 0`
this total function returns the zero matrix, but `calculate_map` only calls
it after the singularity check, mirroring the LinAlgError control flow). -/
def matInv {d : ℕ} (A : Matrix (Fin d) (Fin d) ℚ) : Matrix (Fin d) (Fin d) ℚ :=
  (A.det)⁻¹ • A.adjugate

/-- Embedding of `int(np.round(np.sqrt(n)))` for a natural number `n`.
Since `√n` is never exactly halfway between two integers when `n` is an
integer (that would need `n = s² + s + 1/4`), rounding the real square root
gives `⌊√n⌋` when `√n < ⌊√n⌋ + 1/2` (i.e. `n ≤ ⌊√n⌋² + ⌊√n⌋`) and
`⌊√n⌋ + 1` otherwise; the float error of `np.sqrt` (about 1 ulp) cannot
cross that gap for representable sizes. -/
def roundSqrt (n : ℕ) : ℕ :=
  if n ≤ Nat.sqrt n * Nat.sqrt n + Nat.sqrt n then Nat.sqrt n else Nat.sqrt n + 1

lemma reshape_index_lt {sx sy : ℕ} (x : Fin sx) (y : Fin sy) :
    x.val * sy + y.val < sx * sy := by
  have hx := x.isLt
  have hy := y.isLt
  calc x.val * sy + y.val < x.val * sy + sy := by omega
  _ = (x.val + 1) * sy := by ring
  _ ≤ sx * sy := Nat.mul_le_mul_right _ hx

/-- Embedding of `a.reshape(sx, sy)` for a length-`n` vector `v` with
`sx * sy = n`: row-major (C-order) reshape, so grid entry `(x, y)` is flat
entry `x * sy + y`. -/
def reshapeRow (sx sy n : ℕ) (h : sx * sy = n) (v : Fin n → ℚ) :
    Matrix (Fin sx) (Fin sy) ℚ :=
  Matrix.of fun x y => v ⟨x.val * sy + y.val, h ▸ reshape_index_lt x y⟩

/-- The size used by `calculate_map`: the given `size` if one was passed
(`if not size` in Python only takes the default branch for `size=None` here,
as the docstring documents a pair), else the square default
`(round(sqrt(n)), round(sqrt(n)))`. -/
def defaultSize (size : Option (ℕ × ℕ)) (n : ℕ) : ℕ × ℕ :=
  match size with
  | none => (roundSqrt n, roundSqrt n)
  | some p => p

/-- Embedding of `calculate_map(responses, stimuli, size)` (opm.py lines
128-155): least squares estimate `M_flat = inv(Vᵀ V) Vᵀ R`, then each of the
`d` rows of `M_flat` is reshaped into an `sx × sy` grid.  `np.linalg.inv`
raises on a singular Gram matrix before the size logic runs (for `d = 0` the
0×0 Gram matrix inverts successfully, matching `det = 1 ≠ 0` here).  The
reshape `ValueError` is raised INSIDE the per-row loop
`for i, a in enumerate(M_flat)` (lines 152-153): with an incompatible size
it fires on the first iteration, but when `d = 0` the loop body never runs
and the call succeeds, returning the empty array `np.zeros((0, sx, sy))`. -/
def calculate_map {N n d : ℕ} (responses : Matrix (Fin N) (Fin n) ℚ)
    (stimuli : Matrix (Fin N) (Fin d) ℚ) (size : Option (ℕ × ℕ)) :
    Except OpmError (MapResult d) :=
  let V := stimuli
  let R := responses
  if (Vᵀ * V).det = 0 then .error .SingularDesignMatrix
  else
    let M_flat := matInv (Vᵀ * V) * Vᵀ * R
    let s := defaultSize size n
    if h : s.1 * s.2 = n then
      .ok ⟨s.1, s.2, fun i => reshapeRow s.1 s.2 n h (M_flat i)⟩
    else if hd : d = 0 then
      .ok ⟨s.1, s.2, fun i => Fin.elim0 (hd ▸ i)⟩
    else .error .ShapeMismatch

/-- Embedding of `calculate_map` called with complex-valued `responses`,
given as separate real and imaginary parts.  The multiplier
`inv(Vᵀ V) Vᵀ` is real, so the complex matrix product decomposes into the
two real products below.  The result array `M = np.zeros((d, *size))` has
float dtype, and the numpy assignment `M[i] = a` of a complex row into a
float array keeps only the real part (a `ComplexWarning`, not an error), so
only `M_flat_re` reaches the output.  The reshape error placement (inside
the per-row loop, so absent for `d = 0`) is the same as in
`calculate_map`. -/
def calculate_mapC {N n d : ℕ} (responsesRe responsesIm : Matrix (Fin N) (Fin n) ℚ)
    (stimuli : Matrix (Fin N) (Fin d) ℚ) (size : Option (ℕ × ℕ)) :
    Except OpmError (MapResult d) :=
  let V := stimuli
  if (Vᵀ * V).det = 0 then .error .SingularDesignMatrix
  else
    let M_flat_re := matInv (Vᵀ * V) * Vᵀ * responsesRe
    let M_flat_im := matInv (Vᵀ * V) * Vᵀ * responsesIm
    let s := defaultSize size n
    if h : s.1 * s.2 = n then
      .ok ⟨s.1, s.2, fun i =>
        let _discarded := M_flat_im i
        reshapeRow s.1 s.2 n h (M_flat_re i)⟩
    else if hd : d = 0 then
      .ok ⟨s.1, s.2, fun i => Fin.elim0 (hd ▸ i)⟩
    else .error .ShapeMismatch

/-- The `size` parsing shared by `get_indices` (opm.py lines 118-121):
`isinstance(size, int)` gives a square `(s, s)`, a pair is unpacked. -/
def parseSize (size : ℕ ⊕ ℕ × ℕ) : ℕ × ℕ :=
  match size with
  | .inl s => (s, s)
  | .inr p => p

/-- Embedding of `get_indices(size)` (opm.py lines 108-126):
`X, Y = np.meshgrid(np.arange(sx), np.arange(sy))` gives `X[i, j] = j` and
`Y[i, j] = i` of shape `(sy, sx)`; flattening both in C order and stacking
as columns yields the row list `[(j, i) for i in range(sy) for j in range(sx)]`. -/
def get_indices (size : ℕ ⊕ ℕ × ℕ) : List (ℕ × ℕ) :=
  let p := parseSize size
  (List.range p.2).flatMap fun i => (List.range p.1).map fun j => (j, i)

/-- The `size` parsing of `make_opm` (opm.py lines 19-22), over `ℤ` so that
the negative sizes the claims discuss are representable. -/
def parseSizeZ (size : ℤ ⊕ ℤ × ℤ) : ℤ × ℤ :=
  match size with
  | .inl s => (s, s)
  | .inr p => p

/-- A complex-valued grid `m = a + i·b`, represented by its real part `re`
and imaginary part `im` (both `sx × sy` rational grids). -/
structure ComplexGrid where
  sx : ℕ
  sy : ℕ
  re : Matrix (Fin sx) (Fin sy) ℚ
  im : Matrix (Fin sx) (Fin sy) ℚ

/-- Embedding of `make_opm(size, sigma, k, alpha)` (opm.py lines 6-35).
The two white-noise draws `np.random.randn(sx, sy)` are modelled by the
explicitly passed tables `noiseA`, `noiseB` (the process-wide random source,
made explicit); `randn` raises `ValueError: negative dimensions are not
allowed` when a parsed dimension is negative — the spec's `InvalidShape` —
and accepts zero dimensions, returning an empty grid.
`gaussian_filter p q sigma x` models `scipy.ndimage.filters.gaussian_filter`
as an arbitrary shape-preserving external transform.  Both noise grids are
band-pass filtered (`alpha * blur(x, sigma) - alpha * blur(x, k * sigma)`,
opm.py lines 29-30) and combined as `m = a + 1j * b` (line 33). -/
def make_opm (size : ℤ ⊕ ℤ × ℤ) (noiseA noiseB : ℕ → ℕ → ℚ)
    (gaussian_filter : (p : ℕ) → (q : ℕ) → ℚ →
      Matrix (Fin p) (Fin q) ℚ → Matrix (Fin p) (Fin q) ℚ)
    (sigma k alpha : ℚ) : Except OpmError ComplexGrid :=
  let s := parseSizeZ size
  if s.1 < 0 ∨ s.2 < 0 then .error .InvalidShape
  else
    let sx := s.1.toNat
    let sy := s.2.toNat
    let a : Matrix (Fin sx) (Fin sy) ℚ := Matrix.of fun i j => noiseA i.val j.val
    let b : Matrix (Fin sx) (Fin sy) ℚ := Matrix.of fun i j => noiseB i.val j.val
    let a2 := alpha • gaussian_filter sx sy sigma a -
      alpha • gaussian_filter sx sy (k * sigma) a
    let b2 := alpha • gaussian_filter sx sy sigma b -
      alpha • gaussian_filter sx sy (k * sigma) b
    .ok ⟨sx, sy, a2, b2⟩

open Classical in
/-- Embedding of the angle computation of `plot_opm` (opm.py lines 49-54):
`np.iscomplex(m).any()` is true iff some entry has a nonzero imaginary part,
in which case `theta = 0.5 * (np.angle(m) + np.pi)` (with `np.angle` given
by `Complex.arg`, valued in `(-π, π]`); otherwise `theta = m` unchanged.
The result keeps the value-level type of the branch taken, as the numpy
arrays do. -/
noncomputable def plot_opm_theta {sx sy : ℕ} (m : Matrix (Fin sx) (Fin sy) ℂ) :
    Matrix (Fin sx) (Fin sy) ℂ :=
  if ∃ i j, (m i j).im ≠ 0 then
    Matrix.of fun i j => (((0.5 : ℝ) * (Complex.arg (m i j) + Real.pi) : ℝ) : ℂ)
  else m

section Helpers

lemma matInv_mul {d : ℕ} (A : Matrix (Fin d) (Fin d) ℚ) (h : A.det ≠ 0) :
    matInv A * A = 1 := by
  unfold matInv
  rw [Matrix.smul_mul, Matrix.adjugate_mul, smul_smul, inv_mul_cancel₀ h, one_smul]

lemma sqrt_eq_of (s n : ℕ) (h1 : s * s ≤ n) (h2 : n < (s + 1) * (s + 1)) :
    Nat.sqrt n = s :=
  le_antisymm (Nat.lt_succ_iff.mp (Nat.sqrt_lt.mpr h2)) (Nat.le_sqrt.mpr h1)

lemma roundSqrt_eq_of (s n : ℕ) (h1 : s * s ≤ n) (h2 : n < (s + 1) * (s + 1)) :
    roundSqrt n = if n ≤ s * s + s then s else s + 1 := by
  rw [roundSqrt, sqrt_eq_of s n h1 h2]

lemma roundSqrt_sq (s : ℕ) : roundSqrt (s * s) = s := by
  unfold roundSqrt
  rw [Nat.sqrt_eq]
  simp

lemma not_square_all {n : ℕ} (h : Nat.sqrt n * Nat.sqrt n ≠ n) : ∀ s : ℕ, s * s ≠ n :=
  fun s hs => h ((Nat.exists_mul_self n).mp ⟨s, hs⟩)

/-- Full column rank of the design matrix makes the Gram matrix nonsingular
(over `ℚ`): the kernel of `Vᵀ V` is the kernel of `V`, which is trivial. -/
lemma det_transpose_mul_self_ne_zero {N d : ℕ} (V : Matrix (Fin N) (Fin d) ℚ)
    (hrank : V.rank = d) : (Vᵀ * V).det ≠ 0 := by
  have h1 : (Vᵀ * V).rank = d := by
    rw [Matrix.rank_transpose_mul_self]; exact hrank
  have h2 := LinearMap.finrank_range_add_finrank_ker (Vᵀ * V).mulVecLin
  rw [Matrix.rank] at h1
  rw [h1] at h2
  have hdom : Module.finrank ℚ (Fin d → ℚ) = d := by
    simp [Module.finrank_pi]
  rw [hdom] at h2
  have h3 : Module.finrank ℚ (LinearMap.ker (Vᵀ * V).mulVecLin) = 0 := by omega
  have h4 : LinearMap.ker (Vᵀ * V).mulVecLin = ⊥ := Submodule.finrank_eq_zero.mp h3
  have h5 : Function.Injective (Vᵀ * V).mulVec := by
    have h6 : Function.Injective ((Vᵀ * V).mulVecLin) := LinearMap.ker_eq_bot.mp h4
    intro a b hab
    apply h6
    rw [Matrix.mulVecLin_apply, Matrix.mulVecLin_apply]
    exact hab
  have h6 : IsUnit (Vᵀ * V) := Matrix.mulVec_injective_iff_isUnit.mp h5
  have h7 : IsUnit (Vᵀ * V).det := (Matrix.isUnit_iff_isUnit_det _).mp h6
  exact h7.ne_zero

lemma calculate_map_singular {N n d : ℕ} (R : Matrix (Fin N) (Fin n) ℚ)
    (V : Matrix (Fin N) (Fin d) ℚ) (size : Option (ℕ × ℕ))
    (h : (Vᵀ * V).det = 0) :
    calculate_map R V size = .error .SingularDesignMatrix := by
  simp only [calculate_map]
  rw [if_pos h]

lemma calculate_map_ok {N n d sx sy : ℕ} (R : Matrix (Fin N) (Fin n) ℚ)
    (V : Matrix (Fin N) (Fin d) ℚ) (size : Option (ℕ × ℕ))
    (hdet : (Vᵀ * V).det ≠ 0) (hdef : defaultSize size n = (sx, sy))
    (hs : sx * sy = n) :
    calculate_map R V size =
      .ok ⟨sx, sy, fun i => reshapeRow sx sy n hs ((matInv (Vᵀ * V) * Vᵀ * R) i)⟩ := by
  simp only [calculate_map]
  rw [if_neg hdet, hdef]
  exact dif_pos hs

lemma calculate_map_mismatch {N n d : ℕ} (R : Matrix (Fin N) (Fin n) ℚ)
    (V : Matrix (Fin N) (Fin d) ℚ) (size : Option (ℕ × ℕ))
    (hdet : (Vᵀ * V).det ≠ 0) (hd : 0 < d)
    (hs : (defaultSize size n).1 * (defaultSize size n).2 ≠ n) :
    calculate_map R V size = .error .ShapeMismatch := by
  simp only [calculate_map]
  rw [if_neg hdet, dif_neg hs]
  exact dif_neg (by omega)

/-- With zero stimulus dimensions the per-row loop of `calculate_map` never
executes, so an incompatible size raises nothing: the call returns the empty
`(0, sx, sy)` result (the 0×0 Gram matrix has determinant 1). -/
lemma calculate_map_zero_d {N n : ℕ} (R : Matrix (Fin N) (Fin n) ℚ)
    (V : Matrix (Fin N) (Fin 0) ℚ) (size : Option (ℕ × ℕ))
    (hs : (defaultSize size n).1 * (defaultSize size n).2 ≠ n) :
    calculate_map R V size =
      .ok ⟨(defaultSize size n).1, (defaultSize size n).2, fun i => Fin.elim0 i⟩ := by
  have hdet : (Vᵀ * V).det ≠ 0 := by
    rw [Matrix.det_isEmpty]
    norm_num
  simp only [calculate_map]
  rw [if_neg hdet, dif_neg hs]
  exact dif_pos trivial

lemma range_flatMap_eq (sx sy : ℕ) :
    ((List.range sy).flatMap fun i => (List.range sx).map fun j => (j, i)) =
      (List.range (sy * sx)).map fun k => (k % sx, k / sx) := by
  induction sy with
  | zero => simp
  | succ m ih =>
    rw [List.range_succ, List.flatMap_append, ih, Nat.succ_mul, List.range_add,
      List.map_append]
    congr 1
    simp only [List.flatMap_cons, List.flatMap_nil, List.append_nil, List.map_map]
    apply List.map_congr_left
    intro j hj
    rw [List.mem_range] at hj
    simp only [Function.comp_apply]
    have h1 : (m * sx + j) % sx = j := by
      rw [Nat.mul_comm, Nat.mul_add_mod, Nat.mod_eq_of_lt hj]
    have h2 : (m * sx + j) / sx = m := by
      rw [Nat.mul_comm, Nat.mul_add_div (by omega : 0 < sx), Nat.div_eq_of_lt hj]
      omega
    rw [h1, h2]

lemma get_indices_eq (size : ℕ ⊕ ℕ × ℕ) :
    get_indices size =
      (List.range ((parseSize size).2 * (parseSize size).1)).map
        fun k => (k % (parseSize size).1, k / (parseSize size).1) := by
  simp only [get_indices]
  exact range_flatMap_eq _ _

lemma indexPair_inj (sx : ℕ) : Function.Injective fun k : ℕ => (k % sx, k / sx) := by
  intro a b h
  rw [Prod.mk.injEq] at h
  obtain ⟨h1, h2⟩ := h
  have ha := Nat.div_add_mod a sx
  have hb := Nat.div_add_mod b sx
  rw [← ha, ← hb, h1, h2]

lemma make_opm_invalid (size : ℤ ⊕ ℤ × ℤ) (noiseA noiseB : ℕ → ℕ → ℚ)
    (gaussian_filter : (p : ℕ) → (q : ℕ) → ℚ →
      Matrix (Fin p) (Fin q) ℚ → Matrix (Fin p) (Fin q) ℚ)
    (sigma k alpha : ℚ)
    (h : (parseSizeZ size).1 < 0 ∨ (parseSizeZ size).2 < 0) :
    make_opm size noiseA noiseB gaussian_filter sigma k alpha =
      .error .InvalidShape := by
  simp only [make_opm]
  rw [if_pos h]

lemma make_opm_ok (size : ℤ ⊕ ℤ × ℤ) (noiseA noiseB : ℕ → ℕ → ℚ)
    (gaussian_filter : (p : ℕ) → (q : ℕ) → ℚ →
      Matrix (Fin p) (Fin q) ℚ → Matrix (Fin p) (Fin q) ℚ)
    (sigma k alpha : ℚ)
    (h : ¬((parseSizeZ size).1 < 0 ∨ (parseSizeZ size).2 < 0)) :
    make_opm size noiseA noiseB gaussian_filter sigma k alpha =
      .ok ⟨(parseSizeZ size).1.toNat, (parseSizeZ size).2.toNat,
        alpha • gaussian_filter (parseSizeZ size).1.toNat (parseSizeZ size).2.toNat sigma
            (Matrix.of fun i j => noiseA i.val j.val) -
          alpha • gaussian_filter (parseSizeZ size).1.toNat (parseSizeZ size).2.toNat
            (k * sigma) (Matrix.of fun i j => noiseA i.val j.val),
        alpha • gaussian_filter (parseSizeZ size).1.toNat (parseSizeZ size).2.toNat sigma
            (Matrix.of fun i j => noiseB i.val j.val) -
          alpha • gaussian_filter (parseSizeZ size).1.toNat (parseSizeZ size).2.toNat
            (k * sigma) (Matrix.of fun i j => noiseB i.val j.val)⟩ := by
  simp only [make_opm]
  rw [if_neg h]

end Helpers

section Claims

/-- Claim C1 (confirmed): for every stimuli matrix `V` of full column rank
and every flat component matrix `M0` whose number of units is a perfect
square `n = s * s`, running the estimator on the exact noiseless responses
`R = V * M0` returns exactly the components `M0`, each row reshaped to an
`s × s` grid (exact rational arithmetic models "up to floating-point
tolerance", so recovery is exact equality). -/
theorem C1_roundtrip {N d s : ℕ} (V : Matrix (Fin N) (Fin d) ℚ)
    (M0 : Matrix (Fin d) (Fin (s * s)) ℚ) (hrank : V.rank = d) :
    calculate_map (V * M0) V none =
      .ok ⟨s, s, fun i => reshapeRow s s (s * s) rfl (M0 i)⟩ := by
  have hdet := det_transpose_mul_self_ne_zero V hrank
  have hM : matInv (Vᵀ * V) * Vᵀ * (V * M0) = M0 := by
    rw [← Matrix.mul_assoc, Matrix.mul_assoc (matInv (Vᵀ * V)), matInv_mul _ hdet,
      Matrix.one_mul]
  have hdef : defaultSize none (s * s) = (s, s) := by
    show (roundSqrt (s * s), roundSqrt (s * s)) = (s, s)
    rw [roundSqrt_sq]
  rw [calculate_map_ok (V * M0) V none hdet hdef rfl, hM]

/-- Concrete instance of `C1_roundtrip`: 1×1 design of full rank, one
component with a single unit (1 = 1·1 is a perfect square). -/
theorem C1_roundtrip_witness :
    (!![(1 : ℚ)]).rank = 1 ∧
    calculate_map (!![(1 : ℚ)] * !![(5 : ℚ)]) !![(1 : ℚ)] none =
      .ok ⟨1, 1, fun i => reshapeRow 1 1 (1 * 1) rfl (!![(5 : ℚ)] i)⟩ := by
  have hone : !![(1 : ℚ)] = (1 : Matrix (Fin 1) (Fin 1) ℚ) := by
    ext i j
    fin_cases i
    fin_cases j
    simp
  have hrank : (!![(1 : ℚ)]).rank = 1 := by
    rw [hone, Matrix.rank_one, Fintype.card_fin]
  exact ⟨hrank, C1_roundtrip (s := 1) !![(1 : ℚ)] !![(5 : ℚ)] hrank⟩

/-- Claim C2 (confirmed): every valid call (`Vᵀ V` nonsingular and selected
size `(sx, sy)` compatible with the `n` response columns) returns a result of
shape `d × sx × sy` whose slice `i` is row `i` of the least-squares
coefficient matrix `(Vᵀ V)⁻¹ Vᵀ R`, reshaped to `sx × sy`.  The witness
instantiates the spec's example shape: `d = 2` stimulus columns, `n = 9`
response units and `size = none` give output shape `(2, 3, 3)`. -/
theorem C2_least_squares {N n d sx sy : ℕ} (R : Matrix (Fin N) (Fin n) ℚ)
    (V : Matrix (Fin N) (Fin d) ℚ) (size : Option (ℕ × ℕ))
    (hdet : (Vᵀ * V).det ≠ 0) (hdef : defaultSize size n = (sx, sy))
    (hs : sx * sy = n) :
    calculate_map R V size =
      .ok ⟨sx, sy, fun i => reshapeRow sx sy n hs ((matInv (Vᵀ * V) * Vᵀ * R) i)⟩ :=
  calculate_map_ok R V size hdet hdef hs

/-- Witness fixture for C2: identity-like 4×2 design (row `i` selects
stimulus column `i mod 2`; full column rank). -/
def witnessDesign : Matrix (Fin 4) (Fin 2) ℚ :=
  Matrix.of fun i j => if i.val % 2 = j.val then 1 else 0

/-- Witness fixture for C2: constant 4×9 response matrix. -/
def witnessResponses9 : Matrix (Fin 4) (Fin 9) ℚ :=
  Matrix.of fun _ _ => 1

/-- Concrete instance of `C2_least_squares` with the spec's example shapes
(`d = 2`, `n = 9`, `size = none`): output shape is `(2, 3, 3)`. -/
theorem C2_least_squares_witness :
    ((witnessDesignᵀ * witnessDesign).det ≠ 0 ∧ defaultSize none 9 = (3, 3) ∧
      3 * 3 = 9) ∧
    calculate_map witnessResponses9 witnessDesign none =
      .ok ⟨3, 3, fun i => reshapeRow 3 3 9 (by norm_num)
        ((matInv (witnessDesignᵀ * witnessDesign) * witnessDesignᵀ *
          witnessResponses9) i)⟩ := by
  have hdet : (witnessDesignᵀ * witnessDesign).det ≠ 0 := by
    rw [Matrix.det_fin_two]
    simp [witnessDesign, Matrix.mul_apply, Fin.sum_univ_succ]
  have hdef : defaultSize none 9 = (3, 3) := by
    show (roundSqrt 9, roundSqrt 9) = (3, 3)
    rw [roundSqrt_eq_of 3 9 (by norm_num) (by norm_num)]
    norm_num
  exact ⟨⟨hdet, hdef, by norm_num⟩,
    C2_least_squares witnessResponses9 witnessDesign none hdet hdef (by norm_num)⟩

/-- Claim C3 (confirmed): a singular Gram matrix `Vᵀ V` makes the estimator
fail with `SingularDesignMatrix` (e.g. for a duplicated column, as in the
witness); for full-column-rank stimuli that error is unreachable. -/
theorem C3_singular {N n d : ℕ} (R : Matrix (Fin N) (Fin n) ℚ)
    (V : Matrix (Fin N) (Fin d) ℚ) (size : Option (ℕ × ℕ)) :
    ((Vᵀ * V).det = 0 → calculate_map R V size = .error .SingularDesignMatrix) ∧
    (V.rank = d → calculate_map R V size ≠ .error .SingularDesignMatrix) := by
  constructor
  · exact calculate_map_singular R V size
  · intro hrank
    have hdet := det_transpose_mul_self_ne_zero V hrank
    by_cases hs : (defaultSize size n).1 * (defaultSize size n).2 = n
    · rw [calculate_map_ok R V size hdet rfl hs]
      simp
    · rcases Nat.eq_zero_or_pos d with hd | hd
      · subst hd
        rw [calculate_map_zero_d R V size hs]
        simp
      · rw [calculate_map_mismatch R V size hdet hd hs]
        simp

/-- Witness fixture for C3: 2×2 design with a duplicated column. -/
def witnessDupDesign : Matrix (Fin 2) (Fin 2) ℚ :=
  Matrix.of fun _ _ => 1

/-- Witness fixture for C3: constant 2×4 response matrix. -/
def witnessResponses4 : Matrix (Fin 2) (Fin 4) ℚ :=
  Matrix.of fun _ _ => 1

/-- Concrete instance of `C3_singular`: the duplicated-column design raises
`SingularDesignMatrix`; the full-rank identity design does not. -/
theorem C3_singular_witness :
    ((witnessDupDesignᵀ * witnessDupDesign).det = 0 ∧
      calculate_map witnessResponses4 witnessDupDesign none =
        .error .SingularDesignMatrix) ∧
    ((1 : Matrix (Fin 2) (Fin 2) ℚ).rank = 2 ∧
      calculate_map witnessResponses4 (1 : Matrix (Fin 2) (Fin 2) ℚ) none ≠
        .error .SingularDesignMatrix) := by
  have h0 : (witnessDupDesignᵀ * witnessDupDesign).det = 0 := by
    rw [Matrix.det_fin_two]
    simp [witnessDupDesign, Matrix.mul_apply, Fin.sum_univ_succ]
  have h1 : (1 : Matrix (Fin 2) (Fin 2) ℚ).rank = 2 := by
    rw [Matrix.rank_one, Fintype.card_fin]
  exact ⟨⟨h0, (C3_singular witnessResponses4 witnessDupDesign none).1 h0⟩,
    ⟨h1, (C3_singular witnessResponses4 (1 : Matrix (Fin 2) (Fin 2) ℚ) none).2 h1⟩⟩

/-- Claim C4 (corrected): with `size` omitted, any successful result has the
square default side `round(sqrt n)` in both grid dimensions; and — provided
the Gram matrix is nonsingular (so that `np.linalg.inv` does not fail first:
see `C4_default_size_counterexample` for why that proviso is forced) and
there is at least one stimulus dimension (`0 < d`, so the per-row reshape
loop of opm.py lines 152-153 actually executes) — a non-perfect-square `n`
makes the call fail with `ShapeMismatch`.  For `d = 0` the loop body never
runs and the call succeeds with an empty `(0, sx, sy)` array. -/
theorem C4_default_size {N n d : ℕ} (R : Matrix (Fin N) (Fin n) ℚ)
    (V : Matrix (Fin N) (Fin d) ℚ) :
    (∀ res : MapResult d, calculate_map R V none = .ok res →
      res.sx = roundSqrt n ∧ res.sy = roundSqrt n) ∧
    ((Vᵀ * V).det ≠ 0 → 0 < d → (∀ s : ℕ, s * s ≠ n) →
      calculate_map R V none = .error .ShapeMismatch) := by
  constructor
  · intro res h
    by_cases hdet : (Vᵀ * V).det = 0
    · rw [calculate_map_singular R V none hdet] at h
      exact absurd h (by simp)
    · by_cases hs : (defaultSize none n).1 * (defaultSize none n).2 = n
      · rw [calculate_map_ok R V none hdet rfl hs] at h
        rw [Except.ok.injEq] at h
        rw [← h]
        exact ⟨rfl, rfl⟩
      · rcases Nat.eq_zero_or_pos d with hd | hd
        · subst hd
          rw [calculate_map_zero_d R V none hs] at h
          rw [Except.ok.injEq] at h
          rw [← h]
          exact ⟨rfl, rfl⟩
        · rw [calculate_map_mismatch R V none hdet hd hs] at h
          exact absurd h (by simp)
  · intro hdet hd hn
    exact calculate_map_mismatch R V none hdet hd (hn _)

/-- Witness fixture for C4 and C10: full-rank 1×1 design. -/
def witnessDesign1 : Matrix (Fin 1) (Fin 1) ℚ :=
  Matrix.of fun _ _ => 1

/-- Witness fixture for C4: constant 1×10 response matrix (10 response
units, not a perfect square). -/
def witnessResponses10 : Matrix (Fin 1) (Fin 10) ℚ :=
  Matrix.of fun _ _ => 1

/-- Concrete instance of `C4_default_size`: full-rank design, 10 response
units, no explicit size: the call fails with `ShapeMismatch`. -/
theorem C4_default_size_witness :
    ((witnessDesign1ᵀ * witnessDesign1).det ≠ 0 ∧ (0 : ℕ) < 1 ∧
      (∀ s : ℕ, s * s ≠ 10)) ∧
    calculate_map witnessResponses10 witnessDesign1 none =
      .error .ShapeMismatch := by
  have hdet : (witnessDesign1ᵀ * witnessDesign1).det ≠ 0 := by
    rw [Matrix.det_fin_one]
    simp [witnessDesign1, Matrix.mul_apply]
  have hn : ∀ s : ℕ, s * s ≠ 10 := not_square_all (by
    rw [sqrt_eq_of 3 10 (by norm_num) (by norm_num)]
    norm_num)
  exact ⟨⟨hdet, by norm_num, hn⟩,
    (C4_default_size witnessResponses10 witnessDesign1).2 hdet (by norm_num) hn⟩

/-- Counterexample fixture for C4: all-zero (hence singular) 1×1 design. -/
def witnessZeroDesign1 : Matrix (Fin 1) (Fin 1) ℚ :=
  Matrix.of fun _ _ => 0

/-- Claim C4 counterexample: a concrete call with `size` omitted and
`n = 10` response units (10 is not a perfect square) that does NOT fail with
`ShapeMismatch`: with an all-zero design matrix, `np.linalg.inv` fails
first, so the call errors with `SingularDesignMatrix` instead.  Hence "the
call fails with the ShapeMismatch error" does not hold of every such call. -/
theorem C4_default_size_counterexample :
    Nat.sqrt 10 * Nat.sqrt 10 ≠ 10 ∧
    calculate_map witnessResponses10 witnessZeroDesign1 none =
      .error .SingularDesignMatrix ∧
    (Except.error .SingularDesignMatrix : Except OpmError (MapResult 1)) ≠
      .error .ShapeMismatch := by
  refine ⟨?_, ?_, by simp⟩
  · rw [sqrt_eq_of 3 10 (by norm_num) (by norm_num)]
    norm_num
  · apply calculate_map_singular
    rw [Matrix.det_fin_one]
    simp [witnessZeroDesign1, Matrix.mul_apply]

/-- Claim C5 (corrected): `make_opm` performs no size validation of its own.
A NEGATIVE parsed dimension makes `np.random.randn` raise (the spec's
`InvalidShape`), but a ZERO dimension is accepted by `randn`, which returns
an empty array that the shape-preserving blur maps to an empty grid; so the
claim's "non-positive" is too strong — see
`C5_invalid_shape_counterexample`. -/
theorem C5_invalid_shape (size : ℤ ⊕ ℤ × ℤ) (noiseA noiseB : ℕ → ℕ → ℚ)
    (gaussian_filter : (p : ℕ) → (q : ℕ) → ℚ →
      Matrix (Fin p) (Fin q) ℚ → Matrix (Fin p) (Fin q) ℚ)
    (sigma k alpha : ℚ)
    (h : (parseSizeZ size).1 < 0 ∨ (parseSizeZ size).2 < 0) :
    make_opm size noiseA noiseB gaussian_filter sigma k alpha =
      .error .InvalidShape :=
  make_opm_invalid size noiseA noiseB gaussian_filter sigma k alpha h

/-- Concrete instance of `C5_invalid_shape`: integer size `-1` (parsing to
the pair `(-1, -1)`) fails with `InvalidShape`. -/
theorem C5_invalid_shape_witness :
    ((parseSizeZ (.inl (-1))).1 < 0 ∨ (parseSizeZ (.inl (-1))).2 < 0) ∧
    make_opm (.inl (-1)) (fun _ _ => 0) (fun _ _ => 0) (fun _ _ _ m => m) 4 2 1 =
      .error .InvalidShape :=
  ⟨Or.inl (by decide),
    C5_invalid_shape (.inl (-1)) (fun _ _ => 0) (fun _ _ => 0) (fun _ _ _ m => m)
      4 2 1 (Or.inl (by decide))⟩

/-- Claim C5 counterexample: size `0` has a non-positive dimension, yet
`make_opm` does not fail at all (in particular not with `InvalidShape`):
`np.random.randn(0, 0)` returns an empty array and the call succeeds with an
empty grid. -/
theorem C5_invalid_shape_counterexample :
    make_opm (.inl 0) (fun _ _ => 0) (fun _ _ => 0) (fun _ _ _ m => m) 4 2 1 ≠
        .error .InvalidShape ∧
    make_opm (.inl 0) (fun _ _ => 0) (fun _ _ => 0) (fun _ _ _ m => m) 4 2 1 ≠
        .error .SingularDesignMatrix ∧
    make_opm (.inl 0) (fun _ _ => 0) (fun _ _ => 0) (fun _ _ _ m => m) 4 2 1 ≠
        .error .ShapeMismatch := by
  have hok := make_opm_ok (.inl 0) (fun _ _ => 0) (fun _ _ => 0) (fun _ _ _ m => m)
    4 2 1 (by decide)
  rw [hok]
  exact ⟨by simp, by simp, by simp⟩

/-- Claim C6 (confirmed): for every valid size (positive parsed dimensions;
an integer `s` parses to `(s, s)`, a pair to `(sx, sy)`), `make_opm` returns
a complex grid of shape exactly `(sx, sy)` whose real part is the first
noise grid and whose imaginary part is the second, each filtered by
`alpha • blur(x, sigma) - alpha • blur(x, k·sigma)` — the combination
`m = a + i·b` of the two band-pass-filtered white-noise draws. -/
theorem C6_generator (size : ℤ ⊕ ℤ × ℤ) (noiseA noiseB : ℕ → ℕ → ℚ)
    (gaussian_filter : (p : ℕ) → (q : ℕ) → ℚ →
      Matrix (Fin p) (Fin q) ℚ → Matrix (Fin p) (Fin q) ℚ)
    (sigma k alpha : ℚ)
    (hx : 0 < (parseSizeZ size).1) (hy : 0 < (parseSizeZ size).2) :
    make_opm size noiseA noiseB gaussian_filter sigma k alpha =
      .ok ⟨(parseSizeZ size).1.toNat, (parseSizeZ size).2.toNat,
        alpha • gaussian_filter (parseSizeZ size).1.toNat (parseSizeZ size).2.toNat sigma
            (Matrix.of fun i j => noiseA i.val j.val) -
          alpha • gaussian_filter (parseSizeZ size).1.toNat (parseSizeZ size).2.toNat
            (k * sigma) (Matrix.of fun i j => noiseA i.val j.val),
        alpha • gaussian_filter (parseSizeZ size).1.toNat (parseSizeZ size).2.toNat sigma
            (Matrix.of fun i j => noiseB i.val j.val) -
          alpha • gaussian_filter (parseSizeZ size).1.toNat (parseSizeZ size).2.toNat
            (k * sigma) (Matrix.of fun i j => noiseB i.val j.val)⟩ :=
  make_opm_ok size noiseA noiseB gaussian_filter sigma k alpha (by omega)

/-- Concrete instance of `C6_generator` at the spec's example parameters
`size = (4, 4)`, `sigma = 1`, `k = 2`: output shape is `(4, 4)` (the blur is
instantiated with the identity transform and the noise with zeros). -/
theorem C6_generator_witness :
    (0 < (parseSizeZ (.inr (4, 4))).1 ∧ 0 < (parseSizeZ (.inr (4, 4))).2) ∧
    make_opm (.inr (4, 4)) (fun _ _ => 0) (fun _ _ => 0) (fun _ _ _ m => m) 1 2 1 =
      .ok ⟨4, 4,
        (1 : ℚ) • (Matrix.of fun (_ : Fin 4) (_ : Fin 4) => (0 : ℚ)) -
          (1 : ℚ) • (Matrix.of fun (_ : Fin 4) (_ : Fin 4) => (0 : ℚ)),
        (1 : ℚ) • (Matrix.of fun (_ : Fin 4) (_ : Fin 4) => (0 : ℚ)) -
          (1 : ℚ) • (Matrix.of fun (_ : Fin 4) (_ : Fin 4) => (0 : ℚ))⟩ :=
  ⟨⟨by decide, by decide⟩,
    C6_generator (.inr (4, 4)) (fun _ _ => 0) (fun _ _ => 0) (fun _ _ _ m => m)
      1 2 1 (by decide) (by decide)⟩

/-- Claim C7 (confirmed): for every valid size (positive parsed dimensions),
`get_indices` returns exactly `sx * sy` rows, the rows are pairwise
distinct, and the set of rows is exactly all coordinate pairs `(x, y)` with
`x < sx` and `y < sy`. -/
theorem C7_pixel_indices (size : ℕ ⊕ ℕ × ℕ)
    (hx : 0 < (parseSize size).1) (hy : 0 < (parseSize size).2) :
    (get_indices size).length = (parseSize size).1 * (parseSize size).2 ∧
    (get_indices size).Nodup ∧
    ∀ p : ℕ × ℕ, p ∈ get_indices size ↔
      p.1 < (parseSize size).1 ∧ p.2 < (parseSize size).2 := by
  rw [get_indices_eq]
  refine ⟨?_, ?_, ?_⟩
  · rw [List.length_map, List.length_range, Nat.mul_comm]
  · exact (List.nodup_range _).map (indexPair_inj _)
  · intro p
    rw [List.mem_map]
    constructor
    · rintro ⟨k, hk, rfl⟩
      rw [List.mem_range] at hk
      exact ⟨Nat.mod_lt _ hx, (Nat.div_lt_iff_lt_mul hx).mpr hk⟩
    · rintro ⟨h1, h2⟩
      refine ⟨p.2 * (parseSize size).1 + p.1, ?_, ?_⟩
      · rw [List.mem_range]
        calc p.2 * (parseSize size).1 + p.1
            < p.2 * (parseSize size).1 + (parseSize size).1 := by omega
        _ = (p.2 + 1) * (parseSize size).1 := by ring
        _ ≤ (parseSize size).2 * (parseSize size).1 := Nat.mul_le_mul_right _ h2
      · have hm : (p.2 * (parseSize size).1 + p.1) % (parseSize size).1 = p.1 := by
          rw [Nat.mul_comm, Nat.mul_add_mod, Nat.mod_eq_of_lt h1]
        have hd : (p.2 * (parseSize size).1 + p.1) / (parseSize size).1 = p.2 := by
          rw [Nat.mul_comm, Nat.mul_add_div hx, Nat.div_eq_of_lt h1]
          omega
        rw [hm, hd]

/-- Concrete instance of `C7_pixel_indices` at the rectangular size
`(2, 3)`: 6 distinct rows covering `[0, 2) × [0, 3)`. -/
theorem C7_pixel_indices_witness :
    (0 < (parseSize (.inr (2, 3))).1 ∧ 0 < (parseSize (.inr (2, 3))).2) ∧
    ((get_indices (.inr (2, 3))).length = 2 * 3 ∧
      (get_indices (.inr (2, 3))).Nodup ∧
      ∀ p : ℕ × ℕ, p ∈ get_indices (.inr (2, 3)) ↔ p.1 < 2 ∧ p.2 < 3) :=
  ⟨⟨by decide, by decide⟩, C7_pixel_indices (.inr (2, 3)) (by decide) (by decide)⟩

/-- Witness fixture for C8: the flat test vector `(10, 11, 12, 13)`, whose
entries identify the flat positions. -/
def witnessFlat4 : Fin 4 → ℚ := ![10, 11, 12, 13]

/-- Claim C8 (corrected): rows of `get_indices` are in meshgrid order with
the FIRST coordinate varying fastest — row `k` is `(k % sx, k / sx)` — while
the row-major reshape used by `calculate_map` places flat entry `k` of a row
at grid position `(k / sy, k % sy)` (second axis fastest).  For a square
`s × s` map these agree only after SWAPPING the coordinates of row `k`: the
reshape places flat entry `k` at position `(k / s, k % s)`, the transpose of
row `k = (k % s, k / s)`.  The claim's literal statement — row `k` IS the
placement position — fails, see `C8_meshgrid_counterexample`. -/
theorem C8_meshgrid_order (s : ℕ) (hs : 0 < s) (v : Fin (s * s) → ℚ) (k : ℕ)
    (hk : k < s * s) :
    (get_indices (.inr (s, s)))[k]? = some (k % s, k / s) ∧
    reshapeRow s s (s * s) rfl v ⟨k / s, (Nat.div_lt_iff_lt_mul hs).mpr hk⟩
      ⟨k % s, Nat.mod_lt k hs⟩ = v ⟨k, hk⟩ := by
  constructor
  · have heq : get_indices (.inr (s, s)) =
        (List.range (s * s)).map fun k => (k % s, k / s) :=
      get_indices_eq (.inr (s, s))
    rw [heq, List.getElem?_map, List.getElem?_range hk]
    rfl
  · simp only [reshapeRow, Matrix.of_apply]
    congr 1
    apply Fin.ext
    show k / s * s + k % s = k
    rw [Nat.mul_comm]
    exact Nat.div_add_mod k s

/-- Concrete instance of `C8_meshgrid_order` at `s = 2`, `k = 1`: row 1 of
`get_indices` is `(1 % 2, 1 / 2) = (1, 0)` and the reshape places flat
entry 1 at `(1 / 2, 1 % 2) = (0, 1)`. -/
theorem C8_meshgrid_order_witness :
    ((0 : ℕ) < 2 ∧ (1 : ℕ) < 2 * 2) ∧
    ((get_indices (.inr (2, 2)))[1]? = some (1 % 2, 1 / 2) ∧
      reshapeRow 2 2 (2 * 2) rfl witnessFlat4 ⟨1 / 2, by norm_num⟩
        ⟨1 % 2, by norm_num⟩ = witnessFlat4 ⟨1, by norm_num⟩) :=
  ⟨⟨by norm_num, by norm_num⟩,
    C8_meshgrid_order 2 (by norm_num) witnessFlat4 1 (by norm_num)⟩

/-- Claim C8 counterexample: for `size = (2, 2)` and `k = 1`, row 1 of
`get_indices` is `(1, 0)`, but the row-major reshape places flat entry 1 at
grid position `(0, 1)` (position `(1, 0)` instead holds flat entry 2), so
row `k` is NOT the grid position at which flat entry `k` is placed. -/
theorem C8_meshgrid_counterexample :
    (get_indices (.inr (2, 2)))[1]? = some (1, 0) ∧
    reshapeRow 2 2 4 rfl witnessFlat4 0 1 = 11 ∧
    reshapeRow 2 2 4 rfl witnessFlat4 1 0 = 12 ∧
    ((1, 0) : ℕ × ℕ) ≠ (0, 1) := by
  refine ⟨by decide, ?_, ?_, by decide⟩
  · show witnessFlat4 1 = 11
    rfl
  · show witnessFlat4 2 = 12
    rfl

/-- Claim C9 (corrected): `plot_opm` rescales only when
`np.iscomplex(m).any()` holds, i.e. some entry of `m` has a nonzero
imaginary part.  Under that condition (which the claim lacks: a
complex-valued map whose entries are all real is passed through unscaled,
see `C9_plot_angle_counterexample`), every entry of the supplied map is
`0.5 * (angle + π)` — a real value lying in `[0, π]`. -/
theorem C9_plot_angle {sx sy : ℕ} (m : Matrix (Fin sx) (Fin sy) ℂ)
    (hc : ∃ i j, (m i j).im ≠ 0) (i : Fin sx) (j : Fin sy) :
    plot_opm_theta m i j = (((0.5 : ℝ) * (Complex.arg (m i j) + Real.pi) : ℝ) : ℂ) ∧
    0 ≤ (plot_opm_theta m i j).re ∧ (plot_opm_theta m i j).re ≤ Real.pi ∧
    (plot_opm_theta m i j).im = 0 := by
  have hb : plot_opm_theta m = Matrix.of fun i j =>
      (((0.5 : ℝ) * (Complex.arg (m i j) + Real.pi) : ℝ) : ℂ) := by
    unfold plot_opm_theta
    rw [if_pos hc]
  have h1 := Complex.neg_pi_lt_arg (m i j)
  have h2 := Complex.arg_le_pi (m i j)
  rw [hb]
  refine ⟨rfl, ?_, ?_, ?_⟩
  · simp only [Matrix.of_apply, Complex.ofReal_re]
    linarith
  · simp only [Matrix.of_apply, Complex.ofReal_re]
    linarith
  · simp only [Matrix.of_apply, Complex.ofReal_im]

/-- Witness fixture for C9: 1×1 map whose single entry is the imaginary
unit (a genuinely complex value, angle `π/2`). -/
noncomputable def witnessComplexMap : Matrix (Fin 1) (Fin 1) ℂ :=
  Matrix.of fun _ _ => Complex.I

/-- Concrete instance of `C9_plot_angle` on the map with entry `i`. -/
theorem C9_plot_angle_witness :
    (∃ i j, (witnessComplexMap i j).im ≠ 0) ∧
    (plot_opm_theta witnessComplexMap 0 0 =
        (((0.5 : ℝ) * (Complex.arg (witnessComplexMap 0 0) + Real.pi) : ℝ) : ℂ) ∧
      0 ≤ (plot_opm_theta witnessComplexMap 0 0).re ∧
      (plot_opm_theta witnessComplexMap 0 0).re ≤ Real.pi ∧
      (plot_opm_theta witnessComplexMap 0 0).im = 0) := by
  have hc : ∃ i j, (witnessComplexMap i j).im ≠ 0 :=
    ⟨0, 0, by simp [witnessComplexMap]⟩
  exact ⟨hc, C9_plot_angle witnessComplexMap hc 0 0⟩

/-- Counterexample fixture for C9: 1×1 complex-valued map whose single
entry is the real number `-1` (imaginary part zero). -/
noncomputable def witnessRealMap : Matrix (Fin 1) (Fin 1) ℂ :=
  Matrix.of fun _ _ => (-1 : ℂ)

/-- Claim C9 counterexample: a complex map all of whose entries have zero
imaginary part is passed through `plot_opm` WITHOUT rescaling
(`np.iscomplex(m).any()` is false), so the supplied value `-1` is not
`0.5 * (angle(-1) + π) = π` and lies outside `[0, π]`. -/
theorem C9_plot_angle_counterexample :
    plot_opm_theta witnessRealMap 0 0 = (-1 : ℂ) ∧
    ¬(0 ≤ (plot_opm_theta witnessRealMap 0 0).re) := by
  have hnc : ¬∃ i j, (witnessRealMap i j).im ≠ 0 := by
    rintro ⟨i, j, h⟩
    exact h (by simp [witnessRealMap])
  have hb : plot_opm_theta witnessRealMap = witnessRealMap := by
    unfold plot_opm_theta
    rw [if_neg hnc]
  rw [hb]
  constructor
  · simp [witnessRealMap]
  · norm_num [witnessRealMap]

/-- Claim C10 (confirmed): a successful `calculate_map` call stores the
coefficient rows into the real zero-initialized array
`np.zeros((d, *size))`, so the returned array is real-valued whatever the
dtype of the responses; with complex responses the imaginary parts of the
estimated coefficients are computed but discarded, and the run coincides
exactly with the real run on the real part of the responses. -/
theorem C10_real_result {N n d : ℕ}
    (responsesRe responsesIm : Matrix (Fin N) (Fin n) ℚ)
    (stimuli : Matrix (Fin N) (Fin d) ℚ) (size : Option (ℕ × ℕ)) :
    calculate_mapC responsesRe responsesIm stimuli size =
      calculate_map responsesRe stimuli size := rfl

end Claims

end GPMaps
